import Mathlib

/-!
Shallow embedding of `deploy.py` (VeChain Uniswap-v2 deployment script).

Network effects are modelled by passing the responses the node would give as
explicit inputs: a receipt source is a function from poll index to the
receipt observed at that poll (`none` meaning the receipt is still absent),
and each deploy/call step carries the outcome of its block fetch and its
transaction submission. Randomness (`secrets.token_hex`) is modelled by
passing the drawn bytes as an argument. External pure primitives from
`thor_devkit` (ABI coder, secp256k1 signer) are modelled as abstract
function parameters or left out when no claim depends on them.
-/

namespace DeployPy

/-- Error taxonomy of the script. Each constructor names one raise site of
`deploy.py`, except `missingCreatedAddress`, which is the spec's named error
(section 7) with no corresponding raise site in the source: the source reaches
an unguarded `addrs[0]` instead, modelled by `indexOutOfRange`. -/
inductive Err where
  /-- `raise Exception` on a non-200 HTTP status (get_block, get_account,
  post_tx, tx_receipt). -/
  | transportError
  /-- `raise Exception("Cannot get receipt after ...")` in wait_for_receipt. -/
  | timeoutError
  /-- `raise Exception("reverted")` in deploy and call_function. -/
  | revertedErr
  /-- Python IndexError: `addrs[0]` on an empty list in deploy, line 198. -/
  | indexOutOfRange
  /-- Spec section 7 names `MissingCreatedAddress`; no raise site in source. -/
  | missingCreatedAddress
  /-- `raise Exception("Cannot find createPair abi")` in `__main__`. -/
  | abiNotFound
  /-- AssertionError from the two pre-flight asserts in `__main__`. -/
  | preflightFailed
deriving DecidableEq, Repr

/-- One output record of a transaction receipt. `contractAddress` is `none`
when the key is absent or null in the JSON. -/
structure OutputRec where
  contractAddress : Option String
deriving DecidableEq, Repr

/-- A transaction receipt: `reverted` flag plus output records. -/
structure Receipt where
  reverted : Bool
  outputs : List OutputRec
deriving DecidableEq, Repr

/-- Python truthiness of `x.get("contractAddress")`: `None` and the empty
string are falsy. -/
def truthyAddr : Option String → Bool
  | none => false
  | some s => !s.isEmpty

/-- `is_reverted` (lines 146 to 148). -/
def is_reverted (receipt : Receipt) : Bool :=
  receipt.reverted

/-- `_find_created_contracts` (lines 151 to 158): scan the output records in
order and collect every truthy `contractAddress`. -/
def find_created_contracts : List OutputRec → List String
  | [] => []
  | x :: rest =>
      match x.contractAddress with
      | some s => if s.isEmpty then find_created_contracts rest
                  else s :: find_created_contracts rest
      | none => find_created_contracts rest

/-- Receipt handling of `deploy` (lines 194 to 199): raise on a reverted
receipt, otherwise take `addrs[0]` of the created-contract list; on an empty
list Python raises IndexError, an unclassified runtime fault. -/
def deploy_classify (receipt : Receipt) : Except Err String :=
  if is_reverted receipt then Except.error Err.revertedErr
  else
    match find_created_contracts receipt.outputs with
    | [] => Except.error Err.indexOutOfRange
    | a :: _ => Except.ok a

/-- Receipt handling of `call_function` (lines 217 to 220): raise on a
reverted receipt, otherwise return the transaction id. -/
def call_classify (receipt : Receipt) (tx_id : String) : Except Err String :=
  if is_reverted receipt then Except.error Err.revertedErr
  else Except.ok tx_id

/-- The polling loop of `wait_for_receipt` (lines 166 to 171): poll the
receipt source up to `rounds` times starting at poll index `start`, stop at
the first truthy receipt. Returns the receipt found (or `none`) and the total
number of polls performed. -/
def wait_loop (source : Nat → Option Receipt) : Nat → Nat → Option Receipt × Nat
  | start, 0 => (none, start)
  | start, Nat.succ k =>
      match source start with
      | some r => (some r, start + 1)
      | none => wait_loop source (start + 1) k

/-- `wait_for_receipt` (lines 161 to 176): `interval = 3`,
`rounds = wait_for // interval` (the Python default is `wait_for = 20`); poll
until a receipt is observed or the rounds are exhausted, then raise if none
was found. The second component counts the polls (`tx_receipt` calls). -/
def wait_for_receipt (source : Nat → Option Receipt) (wait_for : Nat) :
    Except Err Receipt × Nat :=
  let interval := 3
  let rounds := wait_for / interval
  match wait_loop source 0 rounds with
  | (some r, polls) => (Except.ok r, polls)
  | (none, polls) => (Except.error Err.timeoutError, polls)

/-- A block, as far as the script reads it: its identifier string
(`"0x"` followed by 64 hex characters on the real chain), modelled as the
list of its characters so Python string slicing is `List.take`. -/
structure BlockHead where
  id : List Char
deriving DecidableEq, Repr

/-- `_calc_blockRef` (lines 71 to 73): Python slice `block["id"][0:18]`. -/
def calc_blockRef (block : BlockHead) : List Char :=
  block.id.take 18

/-- `_calc_nonce` (lines 76 to 78): `secrets.token_hex(8)` draws 8 random
bytes and renders them as 16 hex characters; `int(_, 16)` reads the digits
back big-endian. Modelled on the underlying drawn bytes. -/
def calc_nonce (randomBytes : List Nat) : Nat :=
  randomBytes.foldl (fun acc b => acc * 256 + b) 0

/-- One clause of a transaction body: destination (null for contract
creation), value, payload. -/
structure Clause where
  «to» : Option String
  value : Nat
  data : String
deriving DecidableEq, Repr

/-- The transaction body dict assembled by `build_tx` (lines 93 to 108). -/
structure TxBody where
  chainTag : Nat
  blockRef : List Char
  expiration : Nat
  clauses : List Clause
  gasPriceCoef : Nat
  gas : Nat
  dependsOn : Option String
  nonce : Nat
deriving DecidableEq, Repr

/-- Body assembly of `build_tx` (lines 88 to 108). The best-block fetch is
modelled by passing the fetched block, the nonce randomness by passing the
drawn bytes; signing and RLP encoding (thor_devkit) are external to the
claims and omitted. -/
def build_tx (block : BlockHead) (randomBytes : List Nat) (chainTag : Nat)
    («to» : Option String) (value : Nat) (data : String) (gas : Nat)
    (dependsOn : Option String) : TxBody :=
  { chainTag := chainTag
    blockRef := calc_blockRef block
    expiration := 32
    clauses := [{ «to» := «to», value := value, data := data }]
    gasPriceCoef := 0
    gas := gas
    dependsOn := dependsOn
    nonce := calc_nonce randomBytes }

/-- One descriptor of a contract artifact's `abi` list; only the `name` key
is inspected by the script (`each.get("name")`, `none` when absent). -/
structure AbiEntry where
  name : Option String
deriving DecidableEq, Repr

/-- A contract artifact as the script reads it: `contractName`, `bytecode`
(already hex-decoded to bytes by the external `bytes.fromhex`), `abi`. -/
structure ContractMeta where
  contractName : String
  bytecode : List Nat
  abi : List AbiEntry
deriving DecidableEq, Repr

/-- `get_bytecode` (lines 33 to 35) with the default key: the artifact's
bytecode bytes (`bytes.fromhex` is the external hex decoder). -/
def get_bytecode (contract_meta : ContractMeta) : List Nat :=
  contract_meta.bytecode

/-- `find_func_abi` (lines 223 to 228): linear scan of the `abi` list,
returning the first entry whose `name` equals the requested name; Python
falls off the loop and returns `None` when no entry matches. -/
def find_func_abi_list (abis : List AbiEntry) (func_name : String) : Option AbiEntry :=
  match abis with
  | [] => none
  | each :: rest =>
      if each.name = some func_name then some each
      else find_func_abi_list rest func_name

/-- `find_func_abi` entry point (lines 223 to 228). -/
def find_func_abi (contract_meta : ContractMeta) (func_name : String) : Option AbiEntry :=
  find_func_abi_list contract_meta.abi func_name

/-- Python truthiness of the `types` argument in `if not types:` (line 182):
`None` and the empty list are both falsy. -/
def truthyTypes : Option (List String) → Bool
  | none => false
  | some ts => !ts.isEmpty

/-- Payload assembly of `deploy` (lines 182 to 186): bare bytecode when
`types` is falsy, bytecode with ABI-encoded constructor arguments appended
otherwise. `encode` stands for the external `abi.Coder.encode_list`. -/
def deploy_payload (encode : List String → List String → List Nat)
    (contract_meta : ContractMeta) (types : Option (List String))
    (params : List String) : List Nat :=
  if truthyTypes types then
    get_bytecode contract_meta ++ encode (types.getD []) params
  else
    get_bytecode contract_meta

/-- The deployer account as `get_account` returns it: `balance` and `energy`
are the big unsigned integers parsed from hex, `hasCode` the code flag. -/
structure Account where
  balance : Nat
  energy : Nat
  hasCode : Bool
deriving DecidableEq, Repr

/-- Round a rational to the nearest integer, ties to even: the IEEE-754
default rounding applied to an exactly scaled significand. -/
def roundHalfEven (m : ℚ) : ℤ :=
  if m - ⌊m⌋ < 1 / 2 then ⌊m⌋
  else if 1 / 2 < m - ⌊m⌋ then ⌊m⌋ + 1
  else if ⌊m⌋ % 2 = 0 then ⌊m⌋ else ⌊m⌋ + 1

/-- The value of a rounded binary64 result: a finite value (held exactly as
a rational) or the overflow outcome. -/
inductive DoubleVal where
  | finite (val : ℚ)
  | inf
deriving DecidableEq, Repr

/-- Unit in the last place, as an exponent, for a binary64 number whose
binade exponent is `e`: normal numbers (`e ≥ -1022`) carry 53 significant
bits, numbers below `2 ^ (-1022)` are subnormal with fixed granularity
`2 ^ (-1074)`. -/
def stepOf (e : ℤ) : ℤ :=
  if e ≤ -1023 then -1074 else e - 52

/-- IEEE-754 binary64 round-to-nearest-even of a nonnegative rational, at
the value level: scale the input by its unit in the last place (the binade
exponent is `Int.log 2`), round the scaled significand to the nearest
integer with ties to even, and rescale; results at or beyond `2 ^ 1024`
overflow. -/
def roundDouble (q : ℚ) : DoubleVal :=
  if q = 0 then DoubleVal.finite 0
  else if (2 : ℚ) ^ (1024 : ℤ) ≤
      (roundHalfEven (q / 2 ^ stepOf (Int.log 2 q)) : ℚ) * 2 ^ stepOf (Int.log 2 q) then
    DoubleVal.inf
  else
    DoubleVal.finite ((roundHalfEven (q / 2 ^ stepOf (Int.log 2 q)) : ℚ) * 2 ^ stepOf (Int.log 2 q))

/-- The comparison `float(q) > 14000` evaluated as CPython does on the
result of an int/int true division: the division returns the correctly
rounded binary64 quotient, a float-int comparison is exact, and an overflow
of the division raises `OverflowError` — which aborts the run (the quotient
is first computed in the balance print at line 243), so it counts as not
passing. -/
def pyGtMin (q : ℚ) : Bool :=
  match roundDouble q with
  | DoubleVal.inf => false
  | DoubleVal.finite d => decide (14000 < d)

/-- The energy comparison of the first pre-flight assert (line 247):
`int(acc["energy"], 16) / (10 ** 18) > 14000`, with the true division
modelled as the correctly rounded binary64 quotient. -/
def energy_above_min (energy : Nat) : Bool :=
  pyGtMin ((energy : ℚ) / 10 ^ 18)

/-- The two pre-flight asserts of `__main__` (lines 247 to 248):
the float energy comparison and `not acc["hasCode"]`. -/
def preflight_ok (energy : Nat) (hasCode : Bool) : Bool :=
  energy_above_min energy && !hasCode

/-- The node-side responses one deploy or call step consumes, in program
order: the best-block fetch inside `build_tx`, the `post_tx` submission
result (its `ok` value is the transaction id), and the receipt source polled
by `wait_for_receipt`. -/
structure StepEnv where
  blockFetch : Except Err BlockHead
  postResult : Except Err String
  receiptPolls : Nat → Option Receipt

/-- One `deploy` call (lines 179 to 199) over its step environment. The
boolean records whether `post_tx` was called (a `submitRawTransaction`):
it is called exactly when the block fetch inside `build_tx` succeeded. -/
def deploy_step (env : StepEnv) : Except Err String × Bool :=
  match env.blockFetch with
  | Except.error e => (Except.error e, false)
  | Except.ok _ =>
      match env.postResult with
      | Except.error e => (Except.error e, true)
      | Except.ok _ =>
          match (wait_for_receipt env.receiptPolls 20).1 with
          | Except.error e => (Except.error e, true)
          | Except.ok receipt => (deploy_classify receipt, true)

/-- One `call_function` call (lines 202 to 220) over its step environment;
same submission accounting as `deploy_step`. -/
def call_step (env : StepEnv) : Except Err String × Bool :=
  match env.blockFetch with
  | Except.error e => (Except.error e, false)
  | Except.ok _ =>
      match env.postResult with
      | Except.error e => (Except.error e, true)
      | Except.ok tx_id =>
          match (wait_for_receipt env.receiptPolls 20).1 with
          | Except.error e => (Except.error e, true)
          | Except.ok receipt => (call_classify receipt tx_id, true)

/-- Everything `__main__` consumes: the deployer account, the factory
artifact (scanned for `createPair`), and the node responses of the four
steps (deploy VVET, deploy Factory, deploy Router, call createPair). -/
structure MainEnv where
  account : Account
  factory : ContractMeta
  step1 : StepEnv
  step2 : StepEnv
  step3 : StepEnv
  step4 : StepEnv

/-- The `__main__` sequence (lines 240 to 268): pre-flight asserts, then the
four dependent steps in order, aborting at the first failure (a Python
exception unwinds past all later statements). The result is the failing
step index (0 for pre-flight) with its error, or success; the list records,
in order, the steps that called `post_tx`. Payload contents (addresses
threaded between steps) do not influence this control flow and are not
tracked here. -/
def main_run (env : MainEnv) : Except (Nat × Err) Unit × List Nat :=
  if preflight_ok env.account.energy env.account.hasCode then
    match deploy_step env.step1 with
    | (Except.error e, b) => (Except.error (1, e), if b then [1] else [])
    | (Except.ok _, _) =>
        match deploy_step env.step2 with
        | (Except.error e, b) => (Except.error (2, e), 1 :: if b then [2] else [])
        | (Except.ok _, _) =>
            match deploy_step env.step3 with
            | (Except.error e, b) => (Except.error (3, e), [1, 2] ++ if b then [3] else [])
            | (Except.ok _, _) =>
                match find_func_abi env.factory "createPair" with
                | none => (Except.error (4, Err.abiNotFound), [1, 2, 3])
                | some _ =>
                    match call_step env.step4 with
                    | (Except.error e, b) =>
                        (Except.error (4, e), [1, 2, 3] ++ if b then [4] else [])
                    | (Except.ok _, _) => (Except.ok (), [1, 2, 3, 4])
  else (Except.error (0, Err.preflightFailed), [])

/-! Concrete instances used to exercise the theorems on explicit inputs. -/

/-- A mined, successful receipt with one created contract address. -/
def receiptOk : Receipt :=
  { reverted := false, outputs := [{ contractAddress := some "0xabc" }] }

/-- A mined but reverted receipt. -/
def receiptRev : Receipt :=
  { reverted := true, outputs := [] }

/-- A block with a realistic 66-character identifier. -/
def blockSample : BlockHead :=
  ⟨("0x0000000000003abc00fe9a2e36d9f1ab4af907cae9c0c34b0db3b1b9eba8c0e8").data⟩

/-- A receipt source that is absent on the first two polls and delivers a
receipt on the third. -/
def sourceThird : Nat → Option Receipt :=
  fun n => if n < 2 then none else some receiptOk

/-- An artifact whose `abi` list holds a nameless entry followed by two
entries both named `createPair` (duplicate names, first match must win). -/
def metaSample : ContractMeta :=
  { contractName := "UniswapV2Factory"
    bytecode := [96, 128]
    abi := [{ name := none }, { name := some "createPair" }, { name := some "createPair" }] }

/-- A deployer account comfortably above the energy threshold. -/
def accountRich : Account :=
  { balance := 0, energy := 20000 * 10 ^ 18, hasCode := false }

/-- A deployer account holding exactly 14000 display units of energy. -/
def accountPoor : Account :=
  { balance := 0, energy := 14000 * 10 ^ 18, hasCode := false }

/-- A step whose node responses all succeed. -/
def stepOk : StepEnv :=
  { blockFetch := Except.ok blockSample
    postResult := Except.ok "0x01"
    receiptPolls := fun _ => some receiptOk }

/-- A step that submits and then observes a reverted receipt. -/
def stepRev : StepEnv :=
  { blockFetch := Except.ok blockSample
    postResult := Except.ok "0x02"
    receiptPolls := fun _ => some receiptRev }

/-- A run in which step 2 (the Factory deploy) reverts. -/
def envRevert2 : MainEnv :=
  { account := accountRich, factory := metaSample
    step1 := stepOk, step2 := stepRev, step3 := stepOk, step4 := stepOk }

/-- A run whose deployer account sits exactly at the energy boundary. -/
def envPoor : MainEnv :=
  { account := accountPoor, factory := metaSample
    step1 := stepOk, step2 := stepOk, step3 := stepOk, step4 := stepOk }

/-! Helper lemmas shared by the claim theorems. -/

/-- `roundHalfEven` never rounds down by more than one half. -/
theorem roundHalfEven_ge (m : ℚ) : m - 1 / 2 ≤ (roundHalfEven m : ℚ) := by
  have hfl : (⌊m⌋ : ℚ) ≤ m := Int.floor_le m
  have hfl2 : m < ⌊m⌋ + 1 := Int.lt_floor_add_one m
  unfold roundHalfEven
  by_cases h1 : m - ⌊m⌋ < 1 / 2
  · rw [if_pos h1]
    linarith
  · rw [if_neg h1]
    push_neg at h1
    by_cases h2 : 1 / 2 < m - ⌊m⌋
    · rw [if_pos h2]
      push_cast
      linarith
    · rw [if_neg h2]
      push_neg at h2
      by_cases h3 : ⌊m⌋ % 2 = 0
      · rw [if_pos h3]
        linarith
      · rw [if_neg h3]
        push_cast
        linarith

/-- `roundHalfEven` never rounds up by more than one half. -/
theorem roundHalfEven_le (m : ℚ) : (roundHalfEven m : ℚ) ≤ m + 1 / 2 := by
  have hfl : (⌊m⌋ : ℚ) ≤ m := Int.floor_le m
  have hfl2 : m < ⌊m⌋ + 1 := Int.lt_floor_add_one m
  unfold roundHalfEven
  by_cases h1 : m - ⌊m⌋ < 1 / 2
  · rw [if_pos h1]
    linarith
  · rw [if_neg h1]
    push_neg at h1
    by_cases h2 : 1 / 2 < m - ⌊m⌋
    · rw [if_pos h2]
      push_cast
      linarith
    · rw [if_neg h2]
      push_neg at h2
      by_cases h3 : ⌊m⌋ % 2 = 0
      · rw [if_pos h3]
        linarith
      · rw [if_neg h3]
        push_cast
        linarith

/-- A half-ulp round UP (`result = m + 1/2`) only happens at a tie, and a
tie resolves to the even neighbour. -/
theorem roundHalfEven_tie_up (m : ℚ) (h : (roundHalfEven m : ℚ) = m + 1 / 2) :
    Even (roundHalfEven m) := by
  have hfl : (⌊m⌋ : ℚ) ≤ m := Int.floor_le m
  have hfl2 : m < ⌊m⌋ + 1 := Int.lt_floor_add_one m
  unfold roundHalfEven at h ⊢
  by_cases h1 : m - ⌊m⌋ < 1 / 2
  · rw [if_pos h1] at h
    exfalso
    linarith
  · rw [if_neg h1] at h ⊢
    push_neg at h1
    by_cases h2 : 1 / 2 < m - ⌊m⌋
    · rw [if_pos h2] at h
      exfalso
      push_cast at h
      linarith
    · rw [if_neg h2] at h ⊢
      push_neg at h2
      by_cases h3 : ⌊m⌋ % 2 = 0
      · rw [if_pos h3] at h
        exfalso
        linarith
      · rw [if_neg h3] at h ⊢
        exact Int.even_add_one.mpr (fun hcontra => h3 (Int.even_iff.mp hcontra))

/-- A half-ulp round DOWN (`result = m - 1/2`) only happens at a tie, and a
tie resolves to the even neighbour. -/
theorem roundHalfEven_tie_down (m : ℚ) (h : (roundHalfEven m : ℚ) = m - 1 / 2) :
    Even (roundHalfEven m) := by
  have hfl : (⌊m⌋ : ℚ) ≤ m := Int.floor_le m
  have hfl2 : m < ⌊m⌋ + 1 := Int.lt_floor_add_one m
  unfold roundHalfEven at h ⊢
  by_cases h1 : m - ⌊m⌋ < 1 / 2
  · rw [if_pos h1] at h
    exfalso
    linarith
  · rw [if_neg h1] at h ⊢
    push_neg at h1
    by_cases h2 : 1 / 2 < m - ⌊m⌋
    · rw [if_pos h2] at h
      exfalso
      push_cast at h
      linarith
    · rw [if_neg h2] at h ⊢
      push_neg at h2
      by_cases h3 : ⌊m⌋ % 2 = 0
      · rw [if_pos h3] at h
        rw [if_pos h3]
        exact Int.even_iff.mpr h3
      · rw [if_neg h3] at h
        exfalso
        push_cast at h
        linarith

/-- Unfolding of `roundDouble` away from zero. -/
theorem roundDouble_pos_eq (q : ℚ) (hq : q ≠ 0) :
    roundDouble q =
      if (2 : ℚ) ^ (1024 : ℤ) ≤
          (roundHalfEven (q / 2 ^ stepOf (Int.log 2 q)) : ℚ) * 2 ^ stepOf (Int.log 2 q) then
        DoubleVal.inf
      else
        DoubleVal.finite
          ((roundHalfEven (q / 2 ^ stepOf (Int.log 2 q)) : ℚ) * 2 ^ stepOf (Int.log 2 q)) := by
  rw [roundDouble, if_neg hq]

/-- The rescaled rounding differs from the input by at most half an ulp. -/
theorem rounded_err (q : ℚ) (s : ℤ) :
    q - 2 ^ s / 2 ≤ (roundHalfEven (q / 2 ^ s) : ℚ) * 2 ^ s ∧
    (roundHalfEven (q / 2 ^ s) : ℚ) * 2 ^ s ≤ q + 2 ^ s / 2 := by
  have hs : (0 : ℚ) < 2 ^ s := by positivity
  have h1 := roundHalfEven_ge (q / 2 ^ s)
  have h2 := roundHalfEven_le (q / 2 ^ s)
  have hc : q / 2 ^ s * 2 ^ s = q := div_mul_cancel₀ q (ne_of_gt hs)
  constructor
  · have := mul_le_mul_of_nonneg_right h1 (le_of_lt hs)
    rw [sub_mul, hc] at this
    linarith
  · have := mul_le_mul_of_nonneg_right h2 (le_of_lt hs)
    rw [add_mul, hc] at this
    linarith

/-- In the normal range the scaled significand sits in `[2 ^ 52, 2 ^ 53)`. -/
theorem significand_bounds (q : ℚ) (hq : 0 < q) (hnorm : -1022 ≤ Int.log 2 q) :
    (2 : ℚ) ^ (52 : ℤ) ≤ q / 2 ^ stepOf (Int.log 2 q) ∧
    q / 2 ^ stepOf (Int.log 2 q) < 2 ^ (53 : ℤ) := by
  have hstep : stepOf (Int.log 2 q) = Int.log 2 q - 52 := if_neg (by omega)
  have he1 : (2 : ℚ) ^ Int.log 2 q ≤ q := Int.zpow_log_le_self (by norm_num) hq
  have he2 : q < (2 : ℚ) ^ (Int.log 2 q + 1) := Int.lt_zpow_succ_log_self (by norm_num) q
  rw [hstep]
  constructor
  · rw [le_div_iff₀ (by positivity)]
    calc (2 : ℚ) ^ (52 : ℤ) * 2 ^ (Int.log 2 q - 52)
        = 2 ^ Int.log 2 q := by
          rw [← zpow_add₀ (by norm_num : (2 : ℚ) ≠ 0)]
          congr 1
          omega
      _ ≤ q := he1
  · rw [div_lt_iff₀ (by positivity)]
    calc q < (2 : ℚ) ^ (Int.log 2 q + 1) := he2
      _ = 2 ^ (53 : ℤ) * 2 ^ (Int.log 2 q - 52) := by
          rw [← zpow_add₀ (by norm_num : (2 : ℚ) ≠ 0)]
          congr 1
          omega

/-- Subnormal inputs (binade below `2 ^ (-1023)`) round to a value below 2,
so the pre-flight comparison fails. -/
theorem pyGtMin_subnormal (q : ℚ) (hq : 0 < q) (hsub : Int.log 2 q ≤ -1023) :
    pyGtMin q = false := by
  have hq0 : q ≠ 0 := ne_of_gt hq
  have hstep : stepOf (Int.log 2 q) = -1074 := if_pos hsub
  have he2 : q < (2 : ℚ) ^ (Int.log 2 q + 1) := Int.lt_zpow_succ_log_self (by norm_num) q
  have hq1 : q < 1 := by
    have hle : (2 : ℚ) ^ (Int.log 2 q + 1) ≤ 2 ^ (0 : ℤ) :=
      zpow_le_zpow_right₀ (by norm_num) (by omega)
    rw [zpow_zero] at hle
    linarith
  have herr := (rounded_err q (-1074)).2
  have hulp : (2 : ℚ) ^ (-1074 : ℤ) ≤ 1 := zpow_le_one_of_nonpos₀ (by norm_num) (by norm_num)
  have hbig : (2 : ℚ) ≤ 2 ^ (1024 : ℤ) := by
    have h1 : (2 : ℚ) ^ (1 : ℤ) ≤ 2 ^ (1024 : ℤ) := zpow_le_zpow_right₀ (by norm_num) (by norm_num)
    rw [zpow_one] at h1
    exact h1
  unfold pyGtMin
  rw [roundDouble_pos_eq q hq0, hstep, if_neg (by linarith)]
  show decide ((14000 : ℚ) <
      (roundHalfEven (q / 2 ^ (-1074 : ℤ)) : ℚ) * 2 ^ (-1074 : ℤ)) = false
  rw [decide_eq_false_iff_not]
  intro hc
  linarith

/-- Binades up to `2 ^ 12` (inputs below 8192) round to a value below 8193,
so the pre-flight comparison fails. -/
theorem pyGtMin_small (q : ℚ) (hq : 0 < q) (h1 : -1022 ≤ Int.log 2 q)
    (h2 : Int.log 2 q ≤ 12) : pyGtMin q = false := by
  have hq0 : q ≠ 0 := ne_of_gt hq
  have hstep : stepOf (Int.log 2 q) = Int.log 2 q - 52 := if_neg (by omega)
  have he2 : q < (2 : ℚ) ^ (Int.log 2 q + 1) := Int.lt_zpow_succ_log_self (by norm_num) q
  have hqlt : q < 8192 := by
    have hle : (2 : ℚ) ^ (Int.log 2 q + 1) ≤ 2 ^ (13 : ℤ) :=
      zpow_le_zpow_right₀ (by norm_num) (by omega)
    have h13 : (2 : ℚ) ^ (13 : ℤ) = 8192 := by norm_num
    linarith
  have herr := (rounded_err q (Int.log 2 q - 52)).2
  have hulp : (2 : ℚ) ^ (Int.log 2 q - 52) ≤ 1 :=
    zpow_le_one_of_nonpos₀ (by norm_num) (by omega)
  have hbig : (8193 : ℚ) ≤ 2 ^ (1024 : ℤ) := by
    have h14 : (2 : ℚ) ^ (14 : ℤ) ≤ 2 ^ (1024 : ℤ) :=
      zpow_le_zpow_right₀ (by norm_num) (by norm_num)
    have h14v : (2 : ℚ) ^ (14 : ℤ) = 16384 := by norm_num
    linarith
  unfold pyGtMin
  rw [roundDouble_pos_eq q hq0, hstep, if_neg (by linarith)]
  show decide ((14000 : ℚ) <
      (roundHalfEven (q / 2 ^ (Int.log 2 q - 52)) : ℚ) * 2 ^ (Int.log 2 q - 52)) = false
  rw [decide_eq_false_iff_not]
  intro hc
  linarith

/-- Binades from `2 ^ 14` through `2 ^ 1022` (inputs in `[16384, 2 ^ 1023)`)
round to a finite value above 14000, so the pre-flight comparison passes. -/
theorem pyGtMin_mid (q : ℚ) (hq : 0 < q) (h1 : 14 ≤ Int.log 2 q)
    (h2 : Int.log 2 q ≤ 1022) : pyGtMin q = true := by
  have hq0 : q ≠ 0 := ne_of_gt hq
  have hstep : stepOf (Int.log 2 q) = Int.log 2 q - 52 := if_neg (by omega)
  obtain ⟨hm1, hm2⟩ := significand_bounds q hq (by omega)
  rw [hstep] at hm1 hm2
  have h52 : (2 : ℚ) ^ (52 : ℤ) = 4503599627370496 := by norm_num
  have h53 : (2 : ℚ) ^ (53 : ℤ) = 9007199254740992 := by norm_num
  rw [h52] at hm1
  rw [h53] at hm2
  have hr1 := roundHalfEven_ge (q / 2 ^ (Int.log 2 q - 52))
  have hr2 := roundHalfEven_le (q / 2 ^ (Int.log 2 q - 52))
  set n := roundHalfEven (q / 2 ^ (Int.log 2 q - 52)) with hn_def
  have hn_loZ : (4503599627370496 : ℤ) ≤ n := by
    have hlt : (4503599627370495 : ℚ) < (n : ℚ) := by linarith
    have hz : (4503599627370495 : ℤ) < n := by exact_mod_cast hlt
    omega
  have hn_hiZ : n ≤ 9007199254740992 := by
    have hlt : (n : ℚ) < 9007199254740993 := by linarith
    have hz : n < (9007199254740993 : ℤ) := by exact_mod_cast hlt
    omega
  have hn_loQ : (4503599627370496 : ℚ) ≤ (n : ℚ) := by exact_mod_cast hn_loZ
  have hn_hiQ : (n : ℚ) ≤ 9007199254740992 := by exact_mod_cast hn_hiZ
  have hpow_pos : (0 : ℚ) < 2 ^ (Int.log 2 q - 52) := by positivity
  have h52e : (4503599627370496 : ℚ) * 2 ^ (Int.log 2 q - 52) = 2 ^ Int.log 2 q := by
    rw [← h52, ← zpow_add₀ (by norm_num : (2 : ℚ) ≠ 0)]
    congr 1
    omega
  have h53e : (9007199254740992 : ℚ) * 2 ^ (Int.log 2 q - 52) = 2 ^ (Int.log 2 q + 1) := by
    rw [← h53, ← zpow_add₀ (by norm_num : (2 : ℚ) ≠ 0)]
    congr 1
    omega
  have hd_lo : (2 : ℚ) ^ Int.log 2 q ≤ (n : ℚ) * 2 ^ (Int.log 2 q - 52) := by
    rw [← h52e]
    exact mul_le_mul_of_nonneg_right hn_loQ (le_of_lt hpow_pos)
  have hd_hi : (n : ℚ) * 2 ^ (Int.log 2 q - 52) ≤ (2 : ℚ) ^ (Int.log 2 q + 1) := by
    rw [← h53e]
    exact mul_le_mul_of_nonneg_right hn_hiQ (le_of_lt hpow_pos)
  have h14 : (16384 : ℚ) ≤ 2 ^ Int.log 2 q := by
    have hmono : (2 : ℚ) ^ (14 : ℤ) ≤ 2 ^ Int.log 2 q :=
      zpow_le_zpow_right₀ (by norm_num) (by omega)
    have h14v : (2 : ℚ) ^ (14 : ℤ) = 16384 := by norm_num
    linarith
  have hup : (2 : ℚ) ^ (Int.log 2 q + 1) ≤ 2 ^ (1023 : ℤ) :=
    zpow_le_zpow_right₀ (by norm_num) (by omega)
  have h2p : (2 : ℚ) ^ (1024 : ℤ) = 2 ^ (1023 : ℤ) * 2 := by
    rw [← zpow_add_one₀ (by norm_num : (2 : ℚ) ≠ 0)]
    norm_num
  have hppos : (0 : ℚ) < 2 ^ (1023 : ℤ) := by positivity
  unfold pyGtMin
  rw [roundDouble_pos_eq q hq0, hstep, ← hn_def, if_neg (by linarith)]
  show decide ((14000 : ℚ) < (n : ℚ) * 2 ^ (Int.log 2 q - 52)) = true
  rw [decide_eq_true_eq]
  linarith

/-- Binades from `2 ^ 1024` up (inputs at or above `2 ^ 1024`) overflow, so
the division raises and the pre-flight comparison does not pass. -/
theorem pyGtMin_big (q : ℚ) (hq : 0 < q) (h1 : 1024 ≤ Int.log 2 q) :
    pyGtMin q = false := by
  have hq0 : q ≠ 0 := ne_of_gt hq
  have hstep : stepOf (Int.log 2 q) = Int.log 2 q - 52 := if_neg (by omega)
  obtain ⟨hm1, hm2⟩ := significand_bounds q hq (by omega)
  rw [hstep] at hm1
  have h52 : (2 : ℚ) ^ (52 : ℤ) = 4503599627370496 := by norm_num
  rw [h52] at hm1
  have hr1 := roundHalfEven_ge (q / 2 ^ (Int.log 2 q - 52))
  set n := roundHalfEven (q / 2 ^ (Int.log 2 q - 52)) with hn_def
  have hn_loZ : (4503599627370496 : ℤ) ≤ n := by
    have hlt : (4503599627370495 : ℚ) < (n : ℚ) := by linarith
    have hz : (4503599627370495 : ℤ) < n := by exact_mod_cast hlt
    omega
  have hn_loQ : (4503599627370496 : ℚ) ≤ (n : ℚ) := by exact_mod_cast hn_loZ
  have hpow_pos : (0 : ℚ) < 2 ^ (Int.log 2 q - 52) := by positivity
  have h52e : (4503599627370496 : ℚ) * 2 ^ (Int.log 2 q - 52) = 2 ^ Int.log 2 q := by
    rw [← h52, ← zpow_add₀ (by norm_num : (2 : ℚ) ≠ 0)]
    congr 1
    omega
  have hd_lo : (2 : ℚ) ^ Int.log 2 q ≤ (n : ℚ) * 2 ^ (Int.log 2 q - 52) := by
    rw [← h52e]
    exact mul_le_mul_of_nonneg_right hn_loQ (le_of_lt hpow_pos)
  have hmono : (2 : ℚ) ^ (1024 : ℤ) ≤ 2 ^ Int.log 2 q :=
    zpow_le_zpow_right₀ (by norm_num) (by omega)
  unfold pyGtMin
  rw [roundDouble_pos_eq q hq0, hstep, ← hn_def, if_pos (by linarith)]

/-- The binade of 14000 (`[8192, 16384)`, ulp `2 ^ (-39)`): the rounded
quotient exceeds 14000 exactly when the input exceeds `14000 + 2 ^ (-40)`.
The midpoint itself rounds DOWN because the significand of 14000 is even. -/
theorem pyGtMin_13 (q : ℚ) (hq : 0 < q) (he : Int.log 2 q = 13) :
    (pyGtMin q = true ↔ 14000 + 1 / 2 ^ 40 < q) := by
  have hq0 : q ≠ 0 := ne_of_gt hq
  have hstep : stepOf (Int.log 2 q) = -39 := by
    rw [he]
    norm_num [stepOf]
  obtain ⟨hm1, hm2⟩ := significand_bounds q hq (by omega)
  rw [hstep] at hm1 hm2
  have h52 : (2 : ℚ) ^ (52 : ℤ) = 4503599627370496 := by norm_num
  have h53 : (2 : ℚ) ^ (53 : ℤ) = 9007199254740992 := by norm_num
  rw [h52] at hm1
  rw [h53] at hm2
  have hr1 := roundHalfEven_ge (q / 2 ^ (-39 : ℤ))
  have hr2 := roundHalfEven_le (q / 2 ^ (-39 : ℤ))
  set n := roundHalfEven (q / 2 ^ (-39 : ℤ)) with hn_def
  have hppos : (0 : ℚ) < 2 ^ (-39 : ℤ) := by positivity
  -- the overflow test can never fire in this binade
  have hd_hi : (n : ℚ) * 2 ^ (-39 : ℤ) < 16385 := by
    have hnq : (n : ℚ) < 9007199254740993 := by linarith
    have hmul := mul_lt_mul_of_pos_right hnq hppos
    have hval : (9007199254740993 : ℚ) * 2 ^ (-39 : ℤ) < 16385 := by norm_num
    linarith
  have hbig : (16385 : ℚ) ≤ 2 ^ (1024 : ℤ) := by
    have hmono : (2 : ℚ) ^ (15 : ℤ) ≤ 2 ^ (1024 : ℤ) :=
      zpow_le_zpow_right₀ (by norm_num) (by norm_num)
    have h15 : (2 : ℚ) ^ (15 : ℤ) = 32768 := by norm_num
    linarith
  -- the defining comparison, rescaled to the significand
  have hB : ((14000 : ℚ) < (n : ℚ) * 2 ^ (-39 : ℤ)) ↔ (7696581394432000 : ℚ) < (n : ℚ) := by
    rw [show (14000 : ℚ) = 7696581394432000 * 2 ^ (-39 : ℤ) from by norm_num,
        mul_lt_mul_right hppos]
  have hm_eq : q / 2 ^ (-39 : ℤ) = q * 2 ^ (39 : ℤ) := by
    rw [zpow_neg, div_eq_mul_inv, inv_inv]
  have hC0 : ((14000 : ℚ) + 1 / 2 ^ 40 < q) ↔
      (7696581394432000 : ℚ) + 1 / 2 < q * 2 ^ (39 : ℤ) := by
    rw [show (7696581394432000 : ℚ) + 1 / 2 = (14000 + 1 / 2 ^ 40) * 2 ^ (39 : ℤ) from by
          norm_num,
        mul_lt_mul_right (show (0 : ℚ) < 2 ^ (39 : ℤ) from by positivity)]
  have hbridge : (7696581394432000 : ℚ) < (n : ℚ) ↔
      (7696581394432000 : ℚ) + 1 / 2 < q / 2 ^ (-39 : ℤ) := by
    constructor
    · intro h
      have hZ : (7696581394432000 : ℤ) < n := by exact_mod_cast h
      by_cases hcase : n = 7696581394432001
      · by_contra hc
        push_neg at hc
        have hnQ : (n : ℚ) = 7696581394432001 := by exact_mod_cast hcase
        have htie : (n : ℚ) = q / 2 ^ (-39 : ℤ) + 1 / 2 := by
          rw [hnQ]
          linarith
        rw [hn_def] at htie
        have heven := roundHalfEven_tie_up (q / 2 ^ (-39 : ℤ)) htie
        rw [← hn_def, hcase, Int.even_iff] at heven
        omega
      · have hge2 : (7696581394432002 : ℤ) ≤ n := by omega
        have hge2Q : (7696581394432002 : ℚ) ≤ (n : ℚ) := by exact_mod_cast hge2
        linarith
    · intro h
      linarith
  unfold pyGtMin
  rw [roundDouble_pos_eq q hq0, hstep, ← hn_def, if_neg (by linarith)]
  show decide ((14000 : ℚ) < (n : ℚ) * 2 ^ (-39 : ℤ)) = true ↔ 14000 + 1 / 2 ^ 40 < q
  rw [decide_eq_true_eq, hB, hbridge, hm_eq, ← hC0]

/-- The top binade (`[2 ^ 1023, 2 ^ 1024)`, ulp `2 ^ 971`): every finite
rounding lands above 14000, so the comparison passes exactly when the input
does not round up to the overflow threshold `2 ^ 1024`; the midpoint of the
last representable number and `2 ^ 1024` rounds UP because the significand
`2 ^ 53` of the threshold is even. -/
theorem pyGtMin_1023 (q : ℚ) (hq : 0 < q) (he : Int.log 2 q = 1023) :
    (pyGtMin q = true ↔ q < 2 ^ (1024 : ℤ) - 2 ^ (970 : ℤ)) := by
  have hq0 : q ≠ 0 := ne_of_gt hq
  have hstep : stepOf (Int.log 2 q) = 971 := by
    rw [he]
    norm_num [stepOf]
  obtain ⟨hm1, hm2⟩ := significand_bounds q hq (by omega)
  rw [hstep] at hm1 hm2
  have h52 : (2 : ℚ) ^ (52 : ℤ) = 4503599627370496 := by norm_num
  have h53 : (2 : ℚ) ^ (53 : ℤ) = 9007199254740992 := by norm_num
  rw [h52] at hm1
  rw [h53] at hm2
  have hr1 := roundHalfEven_ge (q / 2 ^ (971 : ℤ))
  have hr2 := roundHalfEven_le (q / 2 ^ (971 : ℤ))
  set n := roundHalfEven (q / 2 ^ (971 : ℤ)) with hn_def
  have hppos : (0 : ℚ) < 2 ^ (971 : ℤ) := by positivity
  have hn_loZ : (4503599627370496 : ℤ) ≤ n := by
    have hlt : (4503599627370495 : ℚ) < (n : ℚ) := by linarith
    have hz : (4503599627370495 : ℤ) < n := by exact_mod_cast hlt
    omega
  have hq_eq : q = q / 2 ^ (971 : ℤ) * 2 ^ (971 : ℤ) :=
    (div_mul_cancel₀ q (ne_of_gt hppos)).symm
  have e1 : (9007199254740992 : ℚ) * 2 ^ (971 : ℤ) = 2 ^ (1024 : ℤ) := by
    rw [← h53, ← zpow_add₀ (by norm_num : (2 : ℚ) ≠ 0)]
    norm_num
  have e2 : (1 / 2 : ℚ) * 2 ^ (971 : ℤ) = 2 ^ (970 : ℤ) := by
    rw [show (1 / 2 : ℚ) = 2 ^ (-1 : ℤ) from by norm_num,
        ← zpow_add₀ (by norm_num : (2 : ℚ) ≠ 0)]
    norm_num
  have hsplit : ((9007199254740992 : ℚ) - 1 / 2) * 2 ^ (971 : ℤ) =
      2 ^ (1024 : ℤ) - 2 ^ (970 : ℤ) := by
    rw [sub_mul, e1, e2]
  have hRHS : (q < 2 ^ (1024 : ℤ) - 2 ^ (970 : ℤ)) ↔
      q / 2 ^ (971 : ℤ) < 9007199254740992 - 1 / 2 := by
    constructor
    · intro h
      rw [hq_eq, ← hsplit] at h
      exact (mul_lt_mul_right hppos).mp h
    · intro h
      rw [hq_eq, ← hsplit]
      exact (mul_lt_mul_right hppos).mpr h
  have hinf_iff : ((2 : ℚ) ^ (1024 : ℤ) ≤ (n : ℚ) * 2 ^ (971 : ℤ)) ↔
      (9007199254740992 : ℤ) ≤ n := by
    constructor
    · intro h
      rw [← e1] at h
      have hQ : (9007199254740992 : ℚ) ≤ (n : ℚ) := (mul_le_mul_right hppos).mp h
      exact_mod_cast hQ
    · intro h
      rw [← e1]
      have hQ : (9007199254740992 : ℚ) ≤ (n : ℚ) := by exact_mod_cast h
      exact (mul_le_mul_right hppos).mpr hQ
  unfold pyGtMin
  rw [roundDouble_pos_eq q hq0, hstep, ← hn_def]
  by_cases hinf : (9007199254740992 : ℤ) ≤ n
  · rw [if_pos (hinf_iff.mpr hinf), hRHS]
    constructor
    · intro hcontra
      exact absurd hcontra Bool.false_ne_true
    · intro h
      exfalso
      have hnQ : (9007199254740992 : ℚ) ≤ (n : ℚ) := by exact_mod_cast hinf
      linarith
  · rw [if_neg (fun hc => hinf (hinf_iff.mp hc))]
    show decide ((14000 : ℚ) < (n : ℚ) * 2 ^ (971 : ℤ)) = true ↔
      q < 2 ^ (1024 : ℤ) - 2 ^ (970 : ℤ)
    rw [decide_eq_true_eq, hRHS]
    have hd_lo : (14000 : ℚ) < (n : ℚ) * 2 ^ (971 : ℤ) := by
      have hnQ : (4503599627370496 : ℚ) ≤ (n : ℚ) := by exact_mod_cast hn_loZ
      have hmul : (4503599627370496 : ℚ) * 2 ^ (971 : ℤ) ≤ (n : ℚ) * 2 ^ (971 : ℤ) :=
        mul_le_mul_of_nonneg_right hnQ (le_of_lt hppos)
      have hone : (1 : ℚ) ≤ 2 ^ (971 : ℤ) := by
        have hz : (2 : ℚ) ^ (0 : ℤ) ≤ 2 ^ (971 : ℤ) :=
          zpow_le_zpow_right₀ (by norm_num) (by norm_num)
        rw [zpow_zero] at hz
        exact hz
      nlinarith
    constructor
    · intro _
      push_neg at hinf
      have hn_hi : n ≤ 9007199254740991 := by omega
      by_contra hc
      push_neg at hc
      have hnQ : (n : ℚ) ≤ 9007199254740991 := by exact_mod_cast hn_hi
      have hn_eqQ : (n : ℚ) = 9007199254740991 := by linarith
      have htie : (n : ℚ) = q / 2 ^ (971 : ℤ) - 1 / 2 := by
        rw [hn_eqQ]
        linarith
      rw [hn_def] at htie
      have heven := roundHalfEven_tie_down (q / 2 ^ (971 : ℤ)) htie
      rw [← hn_def] at heven
      have hn_eqZ : n = 9007199254740991 := by exact_mod_cast hn_eqQ
      rw [hn_eqZ, Int.even_iff] at heven
      omega
    · intro _
      exact hd_lo

/-- Full characterisation of the modelled float comparison: the correctly
rounded binary64 quotient exceeds 14000 exactly when the exact input exceeds
`14000 + 2 ^ (-40)` (half an ulp above 14000) and stays below the overflow
threshold `2 ^ 1024 - 2 ^ 970`. -/
theorem pyGtMin_iff (q : ℚ) (hq : 0 ≤ q) :
    pyGtMin q = true ↔
      (14000 + 1 / 2 ^ 40 < q ∧ q < 2 ^ (1024 : ℤ) - 2 ^ (970 : ℤ)) := by
  rcases eq_or_lt_of_le hq with hq0 | hqpos
  · rw [← hq0]
    unfold pyGtMin
    rw [roundDouble, if_pos rfl]
    show decide ((14000 : ℚ) < 0) = true ↔ _
    rw [decide_eq_true_eq]
    constructor
    · intro h
      exfalso
      linarith
    · rintro ⟨h1, -⟩
      exfalso
      have hpos : (0 : ℚ) < 1 / 2 ^ 40 := by positivity
      linarith
  · have he1 : (2 : ℚ) ^ Int.log 2 q ≤ q := Int.zpow_log_le_self (by norm_num) hqpos
    have he2 : q < (2 : ℚ) ^ (Int.log 2 q + 1) := Int.lt_zpow_succ_log_self (by norm_num) q
    by_cases hA : Int.log 2 q ≤ 12
    · have hfalse : pyGtMin q = false := by
        by_cases hsub : Int.log 2 q ≤ -1023
        · exact pyGtMin_subnormal q hqpos hsub
        · exact pyGtMin_small q hqpos (by omega) hA
      rw [hfalse]
      have hqlt : q < 8192 := by
        have hle : (2 : ℚ) ^ (Int.log 2 q + 1) ≤ 2 ^ (13 : ℤ) :=
          zpow_le_zpow_right₀ (by norm_num) (by omega)
        have h13 : (2 : ℚ) ^ (13 : ℤ) = 8192 := by norm_num
        linarith
      constructor
      · intro hcontra
        exact absurd hcontra Bool.false_ne_true
      · rintro ⟨h1, -⟩
        exfalso
        have hpos : (0 : ℚ) < 1 / 2 ^ 40 := by positivity
        linarith
    · by_cases hB : Int.log 2 q = 13
      · rw [pyGtMin_13 q hqpos hB]
        have hup : q < 16384 := by
          have hle : (2 : ℚ) ^ (Int.log 2 q + 1) ≤ 2 ^ (14 : ℤ) :=
            zpow_le_zpow_right₀ (by norm_num) (by omega)
          have h14 : (2 : ℚ) ^ (14 : ℤ) = 16384 := by norm_num
          linarith
        have hbound : (16384 : ℚ) ≤ 2 ^ (1024 : ℤ) - 2 ^ (970 : ℤ) := by
          have ha : (2 : ℚ) ^ (14 : ℤ) ≤ 2 ^ (1023 : ℤ) :=
            zpow_le_zpow_right₀ (by norm_num) (by norm_num)
          have hb : (2 : ℚ) ^ (970 : ℤ) ≤ 2 ^ (1023 : ℤ) :=
            zpow_le_zpow_right₀ (by norm_num) (by norm_num)
          have hc : (2 : ℚ) ^ (1024 : ℤ) = 2 ^ (1023 : ℤ) * 2 := by
            rw [← zpow_add_one₀ (by norm_num : (2 : ℚ) ≠ 0)]
            norm_num
          have h14 : (2 : ℚ) ^ (14 : ℤ) = 16384 := by norm_num
          linarith
        constructor
        · intro h
          exact ⟨h, by linarith⟩
        · rintro ⟨h1, -⟩
          exact h1
      · by_cases hC : Int.log 2 q ≤ 1022
        · rw [pyGtMin_mid q hqpos (by omega) hC]
          have hlo : (16384 : ℚ) ≤ q := by
            have hle : (2 : ℚ) ^ (14 : ℤ) ≤ 2 ^ Int.log 2 q :=
              zpow_le_zpow_right₀ (by norm_num) (by omega)
            have h14 : (2 : ℚ) ^ (14 : ℤ) = 16384 := by norm_num
            linarith
          have hup : q < (2 : ℚ) ^ (1023 : ℤ) := by
            have hle : (2 : ℚ) ^ (Int.log 2 q + 1) ≤ 2 ^ (1023 : ℤ) :=
              zpow_le_zpow_right₀ (by norm_num) (by omega)
            linarith
          have hbound : (2 : ℚ) ^ (1023 : ℤ) ≤ 2 ^ (1024 : ℤ) - 2 ^ (970 : ℤ) := by
            have hb : (2 : ℚ) ^ (970 : ℤ) ≤ 2 ^ (1023 : ℤ) :=
              zpow_le_zpow_right₀ (by norm_num) (by norm_num)
            have hc : (2 : ℚ) ^ (1024 : ℤ) = 2 ^ (1023 : ℤ) * 2 := by
              rw [← zpow_add_one₀ (by norm_num : (2 : ℚ) ≠ 0)]
              norm_num
            linarith
          have hcut : (14000 : ℚ) + 1 / 2 ^ 40 < 16384 := by norm_num
          constructor
          · intro _
            exact ⟨by linarith, by linarith⟩
          · intro _
            rfl
        · by_cases hD : Int.log 2 q = 1023
          · rw [pyGtMin_1023 q hqpos hD]
            have hlo : (16384 : ℚ) ≤ q := by
              have hle : (2 : ℚ) ^ (14 : ℤ) ≤ 2 ^ Int.log 2 q :=
                zpow_le_zpow_right₀ (by norm_num) (by omega)
              have h14 : (2 : ℚ) ^ (14 : ℤ) = 16384 := by norm_num
              linarith
            have hcut : (14000 : ℚ) + 1 / 2 ^ 40 < 16384 := by norm_num
            constructor
            · intro h
              exact ⟨by linarith, h⟩
            · rintro ⟨-, h2⟩
              exact h2
          · have hfalse : pyGtMin q = false := pyGtMin_big q hqpos (by omega)
            rw [hfalse]
            have hlo : (2 : ℚ) ^ (1024 : ℤ) ≤ q := by
              have hle : (2 : ℚ) ^ (1024 : ℤ) ≤ 2 ^ Int.log 2 q :=
                zpow_le_zpow_right₀ (by norm_num) (by omega)
              linarith
            have hppos : (0 : ℚ) < 2 ^ (970 : ℤ) := by positivity
            constructor
            · intro hcontra
              exact absurd hcontra Bool.false_ne_true
            · rintro ⟨-, h2⟩
              exfalso
              linarith

/-- The pre-flight energy comparison in integer terms: the float quotient
of `energy / 1e18` strictly exceeds 14000 exactly when the raw energy
strictly exceeds `14000 * 10 ^ 18 + 909494` (the float quotient of anything
at or below that rounds to at most 14000.0) and stays below the overflow
bound `(2 ^ 1024 - 2 ^ 970) * 10 ^ 18`. -/
theorem energy_above_min_iff (energy : Nat) :
    energy_above_min energy = true ↔
      14000 * 10 ^ 18 + 909494 < energy ∧
      energy < (2 ^ 1024 - 2 ^ 970) * 10 ^ 18 := by
  rw [energy_above_min, pyGtMin_iff _ (by positivity)]
  have hb1 : ((14000 : ℚ) + 1 / 2 ^ 40 < (energy : ℚ) / 10 ^ 18) ↔
      14000 * 10 ^ 18 + 909494 < energy := by
    rw [lt_div_iff₀ (show (0 : ℚ) < 10 ^ 18 by positivity)]
    have hconst1 : ((14000 : ℚ) + 1 / 2 ^ 40) * 10 ^ 18 < 14000 * 10 ^ 18 + 909495 := by
      norm_num
    have hconst2 : (14000 * 10 ^ 18 + 909494 : ℚ) < (14000 + 1 / 2 ^ 40) * 10 ^ 18 := by
      norm_num
    constructor
    · intro h
      by_contra hc
      push_neg at hc
      have hc2 : (energy : ℚ) ≤ 14000 * 10 ^ 18 + 909494 := by exact_mod_cast hc
      linarith
    · intro h
      have h2 : (14000 * 10 ^ 18 + 909495 : ℚ) ≤ (energy : ℚ) := by exact_mod_cast h
      linarith
  have hb2 : ((energy : ℚ) / 10 ^ 18 < 2 ^ (1024 : ℤ) - 2 ^ (970 : ℤ)) ↔
      energy < (2 ^ 1024 - 2 ^ 970) * 10 ^ 18 := by
    rw [div_lt_iff₀ (show (0 : ℚ) < 10 ^ 18 by positivity)]
    have hcast : ((2 : ℚ) ^ (1024 : ℤ) - 2 ^ (970 : ℤ)) * 10 ^ 18 =
        (((2 ^ 1024 - 2 ^ 970) * 10 ^ 18 : ℕ) : ℚ) := by
      have hsub : (2 : ℕ) ^ 970 ≤ 2 ^ 1024 := Nat.pow_le_pow_right one_le_two (by omega)
      push_cast [hsub]
      norm_num
    rw [hcast]
    exact_mod_cast Iff.rfl
  rw [hb1, hb2]

/-- The pre-flight check in integer terms: it passes exactly when the raw
energy strictly exceeds `14000 * 10 ^ 18 + 909494`, stays below the float
overflow bound, and the account holds no code. -/
theorem preflight_char (energy : Nat) (hasCode : Bool) :
    preflight_ok energy hasCode = true ↔
      14000 * 10 ^ 18 + 909494 < energy ∧
      energy < (2 ^ 1024 - 2 ^ 970) * 10 ^ 18 ∧ hasCode = false := by
  rw [preflight_ok, Bool.and_eq_true, Bool.not_eq_true', energy_above_min_iff]
  constructor
  · rintro ⟨⟨h1, h2⟩, h3⟩
    exact ⟨h1, h2, h3⟩
  · rintro ⟨h1, h2, h3⟩
    exact ⟨⟨h1, h2⟩, h3⟩

/-- If the source is absent at every polled index, the polling loop exhausts
its rounds and reports one poll per round. -/
theorem wait_loop_all_none (source : Nat → Option Receipt) :
    ∀ rounds start, (∀ i, i < rounds → source (start + i) = none) →
      wait_loop source start rounds = (none, start + rounds) := by
  intro rounds
  induction rounds with
  | zero => intro start h; rfl
  | succ k ih =>
      intro start h
      have h0 : source start = none := by simpa using h 0 (Nat.succ_pos k)
      rw [wait_loop, h0]
      rw [ih (start + 1) (fun i hi => by
        have hx := h (i + 1) (by omega)
        simpa [Nat.add_assoc, Nat.add_comm 1 i] using hx)]
      simp only [Prod.mk.injEq]
      exact ⟨trivial, by omega⟩

/-- If the source first delivers a receipt at polled index `i` inside the
round budget, the loop stops there after `i + 1` polls. -/
theorem wait_loop_found (source : Nat → Option Receipt) :
    ∀ rounds start i r, i < rounds → (∀ j, j < i → source (start + j) = none) →
      source (start + i) = some r →
      wait_loop source start rounds = (some r, start + i + 1) := by
  intro rounds
  induction rounds with
  | zero => intro start i r hi _ _; exact absurd hi (Nat.not_lt_zero i)
  | succ k ih =>
      intro start i r hi hnone hfound
      cases i with
      | zero =>
          rw [wait_loop]
          simp only [Nat.add_zero] at hfound
          rw [hfound]
      | succ i2 =>
          have h0 : source start = none := by simpa using hnone 0 (Nat.succ_pos i2)
          rw [wait_loop, h0]
          have heq := ih (start + 1) i2 r (by omega)
            (fun j hj => by
              have hx := hnone (j + 1) (by omega)
              simpa [Nat.add_assoc, Nat.add_comm 1 j] using hx)
            (by simpa [Nat.add_assoc, Nat.add_comm 1 i2] using hfound)
          rw [heq]
          simp only [Prod.mk.injEq]
          exact ⟨trivial, by omega⟩

/-- Big-endian byte accumulation stays below `(acc + 1) * 256 ^ length` when
every byte is below 256. -/
theorem foldl_byte_lt (bs : List Nat) :
    ∀ acc, (∀ b ∈ bs, b < 256) →
      bs.foldl (fun a b => a * 256 + b) acc < (acc + 1) * 256 ^ bs.length := by
  induction bs with
  | nil => intro acc _; simp
  | cons b rest ih =>
      intro acc h
      have hb : b < 256 := h b (List.mem_cons_self b rest)
      have hrec := ih (acc * 256 + b) (fun x hx => h x (List.mem_cons_of_mem b hx))
      have hstep : (acc * 256 + b + 1) * 256 ^ rest.length ≤ (acc + 1) * 256 ^ (b :: rest).length := by
        have h1 : acc * 256 + b + 1 ≤ (acc + 1) * 256 := by nlinarith
        calc (acc * 256 + b + 1) * 256 ^ rest.length
            ≤ (acc + 1) * 256 * 256 ^ rest.length := Nat.mul_le_mul_right _ h1
          _ = (acc + 1) * 256 ^ (b :: rest).length := by
              rw [List.length_cons, pow_succ]
              ring
      calc (b :: rest).foldl (fun a x => a * 256 + x) acc
          = rest.foldl (fun a x => a * 256 + x) (acc * 256 + b) := rfl
        _ < (acc * 256 + b + 1) * 256 ^ rest.length := hrec
        _ ≤ (acc + 1) * 256 ^ (b :: rest).length := hstep

/-- The ABI scan returns `none` exactly when no entry of the list bears the
requested name. -/
theorem find_list_none_iff (abis : List AbiEntry) (fn : String) :
    find_func_abi_list abis fn = none ↔ ∀ e ∈ abis, e.name ≠ some fn := by
  induction abis with
  | nil => simp [find_func_abi_list]
  | cons a rest ih =>
      by_cases ha : a.name = some fn
      · rw [find_func_abi_list, if_pos ha]
        simp only [List.mem_cons]
        constructor
        · intro hcontra; exact absurd hcontra (by simp)
        · intro h; exact absurd ha (h a (Or.inl rfl))
      · rw [find_func_abi_list, if_neg ha]
        rw [ih]
        constructor
        · intro h e he
          rcases List.mem_cons.mp he with rfl | hmem
          · exact ha
          · exact h e hmem
        · intro h e he
          exact h e (List.mem_cons_of_mem a he)

/-- If the ABI scan returns an entry, that entry bears the requested name,
sits at some index of the list, and every earlier index does not match:
first match wins under duplicate names. -/
theorem find_list_first (abis : List AbiEntry) (fn : String) :
    ∀ e, find_func_abi_list abis fn = some e →
      e.name = some fn ∧ ∃ i, abis.get? i = some e ∧
        ∀ j, j < i → ∀ x, abis.get? j = some x → x.name ≠ some fn := by
  induction abis with
  | nil => intro e h; simp [find_func_abi_list] at h
  | cons a rest ih =>
      intro e h
      by_cases ha : a.name = some fn
      · rw [find_func_abi_list, if_pos ha] at h
        obtain rfl : a = e := Option.some.inj h
        exact ⟨ha, 0, rfl, fun j hj => absurd hj (Nat.not_lt_zero j)⟩
      · rw [find_func_abi_list, if_neg ha] at h
        obtain ⟨he, i, hg, hprev⟩ := ih e h
        refine ⟨he, i + 1, by simpa using hg, ?_⟩
        intro j hj x hx
        cases j with
        | zero =>
            obtain rfl : a = x := Option.some.inj hx
            exact ha
        | succ j2 =>
            exact hprev j2 (by omega) x (by simpa using hx)

/-! Claim theorems. -/

/-- Claim C1, counterexample: an account whose energy is exactly 14000
display units (raw `14000 * 10 ^ 18`, whose display value is exactly 14000)
with `hasCode = false` does NOT pass the pre-flight check, because the
source compares with strict `>`; the claim says such an account passes.
The raw value one above the boundary also fails: its binary64 quotient
still rounds to exactly 14000.0. -/
theorem preflight_boundary_cex :
    ((14000 * 10 ^ 18 : Nat) : ℚ) / 10 ^ 18 = 14000 ∧
    preflight_ok (14000 * 10 ^ 18) false = false ∧
    preflight_ok (14000 * 10 ^ 18 + 1) false = false := by
  refine ⟨?_, ?_, ?_⟩
  · push_cast
    norm_num
  · cases hpb : preflight_ok (14000 * 10 ^ 18) false
    · rfl
    · have h := ((preflight_char _ _).mp hpb).1
      omega
  · cases hpb : preflight_ok (14000 * 10 ^ 18 + 1) false
    · rfl
    · have h := ((preflight_char _ _).mp hpb).1
      omega

/-- Claim C1, amended: the pre-flight check passes exactly when `hasCode`
is false and the binary64 quotient of the raw energy by `1e18` strictly
exceeds 14000.0 — in raw integer terms, when the energy strictly exceeds
`14000 * 10 ^ 18 + 909494` (the float quotient of anything at or below that
rounds to at most 14000.0 and the assert fires, so in particular an energy
of exactly 14000 display units fails) and stays below the float overflow
bound `(2 ^ 1024 - 2 ^ 970) * 10 ^ 18` (at or beyond which the int/int
division itself raises OverflowError rather than passing); whenever the
energy is at or below `14000 * 10 ^ 18 + 909494` the whole run aborts at
pre-flight with zero submissions, before any transaction is built. -/
theorem preflight_strict (energy : Nat) (hasCode : Bool) :
    (preflight_ok energy hasCode = true ↔
      14000 * 10 ^ 18 + 909494 < energy ∧
      energy < (2 ^ 1024 - 2 ^ 970) * 10 ^ 18 ∧ hasCode = false) ∧
    ∀ env : MainEnv, env.account.energy = energy → env.account.hasCode = hasCode →
      energy ≤ 14000 * 10 ^ 18 + 909494 →
      main_run env = (Except.error (0, Err.preflightFailed), []) := by
  refine ⟨preflight_char energy hasCode, ?_⟩
  intro env h1 h2 h3
  have hpf : preflight_ok env.account.energy env.account.hasCode = false := by
    rw [h1, h2]
    cases hc : preflight_ok energy hasCode
    · rfl
    · have h := ((preflight_char _ _).mp hc).1
      omega
  unfold main_run
  rw [hpf]
  simp

/-- Witness for C1: a run whose deployer holds exactly 14000 display units
aborts at pre-flight with no submissions. -/
theorem preflight_strict_witness :
    main_run envPoor = (Except.error (0, Err.preflightFailed), []) :=
  (preflight_strict (14000 * 10 ^ 18) false).2 envPoor rfl rfl (Nat.le_add_right _ _)

/-- Claim C2, counterexample: on a non-reverted receipt with no created
address the deploy step fails with the unclassified index-out-of-range
runtime fault (Python `addrs[0]` on an empty list), not with the named
`MissingCreatedAddress` error the claim describes. -/
theorem deploy_missing_address_cex :
    deploy_classify { reverted := false, outputs := [] } = Except.error Err.indexOutOfRange ∧
    Err.indexOutOfRange ≠ Err.missingCreatedAddress := by
  exact ⟨rfl, by decide⟩

/-- Claim C2, amended: on a non-reverted receipt whose output records carry
no created address, deploy fails with an unclassified index-out-of-range
runtime fault (there is no named `MissingCreatedAddress` raise); with at
least one created address it returns the first one in output-record order. -/
theorem deploy_first_created (receipt : Receipt) (h : receipt.reverted = false) :
    (find_created_contracts receipt.outputs = [] →
      deploy_classify receipt = Except.error Err.indexOutOfRange) ∧
    ∀ a rest, find_created_contracts receipt.outputs = a :: rest →
      deploy_classify receipt = Except.ok a := by
  unfold deploy_classify is_reverted
  rw [h]
  constructor
  · intro hempty
    rw [hempty]
    rfl
  · intro a rest hcons
    rw [hcons]
    rfl

/-- Witness for C2: a successful receipt with one created address yields
that address. -/
theorem deploy_first_created_witness :
    deploy_classify receiptOk = Except.ok "0xabc" :=
  (deploy_first_created receiptOk rfl).2 "0xabc" [] rfl

/-- Claim C4: a receipt with `reverted = true` always classifies as the
reverted failure, for deploy and call alike, regardless of its output
records; a receipt with `reverted = false` never does. -/
theorem classify_reverted_terminal (receipt : Receipt) (tx_id : String) :
    (receipt.reverted = true →
      deploy_classify receipt = Except.error Err.revertedErr ∧
      call_classify receipt tx_id = Except.error Err.revertedErr) ∧
    (receipt.reverted = false →
      deploy_classify receipt ≠ Except.error Err.revertedErr ∧
      call_classify receipt tx_id ≠ Except.error Err.revertedErr) := by
  constructor
  · intro h
    unfold deploy_classify call_classify is_reverted
    rw [h]
    exact ⟨rfl, rfl⟩
  · intro h
    unfold deploy_classify call_classify is_reverted
    rw [h]
    constructor
    · cases hfc : find_created_contracts receipt.outputs <;> simp [hfc]
    · simp

/-- Witness for C4: the sample reverted receipt fails both classifications
even though its outputs are empty. -/
theorem classify_reverted_terminal_witness :
    deploy_classify receiptRev = Except.error Err.revertedErr ∧
    call_classify receiptRev "0x02" = Except.error Err.revertedErr :=
  (classify_reverted_terminal receiptRev "0x02").1 rfl

/-- Claim C6: for every block whose identifier is at least 18 characters
long (66 on the real chain), the derived block reference is exactly the
18-character head of the identifier — `"0x"` plus 16 hex digits, the first
8 bytes — and the derivation is a deterministic function of the id. -/
theorem blockRef_fixed_head (b : BlockHead) (h : 18 ≤ b.id.length) :
    (calc_blockRef b).length = 18 ∧
    calc_blockRef b ++ b.id.drop 18 = b.id ∧
    ∀ b2 : BlockHead, b2.id = b.id → calc_blockRef b2 = calc_blockRef b := by
  refine ⟨?_, ?_, ?_⟩
  · rw [calc_blockRef, List.length_take]
    omega
  · rw [calc_blockRef, List.take_append_drop]
  · intro b2 h2
    rw [calc_blockRef, calc_blockRef, h2]

/-- Witness for C6: the head of the sample 66-character block id. -/
theorem blockRef_fixed_head_witness :
    (calc_blockRef blockSample).length = 18 ∧
    calc_blockRef blockSample ++ blockSample.id.drop 18 = blockSample.id ∧
    ∀ b2 : BlockHead, b2.id = blockSample.id → calc_blockRef b2 = calc_blockRef blockSample :=
  blockRef_fixed_head blockSample (by decide)

/-- Claim C3: with the default 20-second window and 3-second interval the
watcher performs up to `20 / 3 = 6` polls; it returns the first non-absent
receipt (after `i + 1` polls when the receipt appears at poll index `i`),
and when every poll in the window is absent it raises the timeout error
after exactly 6 polls, 6 being the window divided by the interval within
one poll-interval tolerance (`3 * 6 ≤ 20 < 3 * (6 + 1)`). -/
theorem await_receipt_spec (source : Nat → Option Receipt) :
    (∀ i r, i < 6 → (∀ j, j < i → source j = none) → source i = some r →
      wait_for_receipt source 20 = (Except.ok r, i + 1)) ∧
    ((∀ i, i < 6 → source i = none) →
      wait_for_receipt source 20 = (Except.error Err.timeoutError, 6)) ∧
    (20 / 3 = 6 ∧ 3 * 6 ≤ 20 ∧ 20 < 3 * (6 + 1)) := by
  have hred : wait_for_receipt source 20 =
      (match wait_loop source 0 6 with
       | (some r, polls) => (Except.ok r, polls)
       | (none, polls) => (Except.error Err.timeoutError, polls)) := rfl
  refine ⟨?_, ?_, rfl, by omega, by omega⟩
  · intro i r hi hnone hfound
    have hloop := wait_loop_found source 6 0 i r hi
      (fun j hj => by simpa using hnone j hj) (by simpa using hfound)
    rw [hred, hloop]
    simp
  · intro hnone
    have hloop := wait_loop_all_none source 6 0 (fun i hi => by simpa using hnone i hi)
    rw [hred, hloop]

/-- Witness for C3: a source absent on the first two polls and present on
the third makes the watcher return that receipt after three polls. -/
theorem await_receipt_spec_witness :
    wait_for_receipt sourceThird 20 = (Except.ok receiptOk, 3) :=
  (await_receipt_spec sourceThird).1 2 receiptOk (by decide)
    (fun j hj => if_pos hj) rfl

/-- Claim C7: every transaction body built by `build_tx` has expiration
exactly 32 blocks, fee coefficient exactly 0, the caller-supplied
`dependsOn`, exactly one clause carrying the caller's to/value/data, and a
nonce below `2 ^ 64` whenever it is drawn from 8 fresh random bytes. -/
theorem build_tx_fields (block : BlockHead) (randomBytes : List Nat) (chainTag : Nat)
    («to» : Option String) (value : Nat) (data : String) (gas : Nat)
    (dependsOn : Option String)
    (hlen : randomBytes.length = 8) (hbyte : ∀ b ∈ randomBytes, b < 256) :
    (build_tx block randomBytes chainTag «to» value data gas dependsOn).expiration = 32 ∧
    (build_tx block randomBytes chainTag «to» value data gas dependsOn).gasPriceCoef = 0 ∧
    (build_tx block randomBytes chainTag «to» value data gas dependsOn).dependsOn = dependsOn ∧
    (build_tx block randomBytes chainTag «to» value data gas dependsOn).clauses =
      [{ «to» := «to», value := value, data := data }] ∧
    (build_tx block randomBytes chainTag «to» value data gas dependsOn).nonce < 2 ^ 64 := by
  refine ⟨rfl, rfl, rfl, rfl, ?_⟩
  have hfold := foldl_byte_lt randomBytes 0 hbyte
  rw [hlen] at hfold
  have h256 : (0 + 1) * 256 ^ 8 = 2 ^ 64 := by norm_num
  rw [h256] at hfold
  exact hfold

/-- Witness for C7: a concrete build from 8 explicit random bytes. -/
theorem build_tx_fields_witness :
    (build_tx blockSample [12, 34, 56, 78, 90, 123, 210, 255] 164 none 0 "0x60806040"
      3000000 none).expiration = 32 ∧
    (build_tx blockSample [12, 34, 56, 78, 90, 123, 210, 255] 164 none 0 "0x60806040"
      3000000 none).gasPriceCoef = 0 ∧
    (build_tx blockSample [12, 34, 56, 78, 90, 123, 210, 255] 164 none 0 "0x60806040"
      3000000 none).dependsOn = none ∧
    (build_tx blockSample [12, 34, 56, 78, 90, 123, 210, 255] 164 none 0 "0x60806040"
      3000000 none).clauses = [{ «to» := none, value := 0, data := "0x60806040" }] ∧
    (build_tx blockSample [12, 34, 56, 78, 90, 123, 210, 255] 164 none 0 "0x60806040"
      3000000 none).nonce < 2 ^ 64 :=
  build_tx_fields blockSample [12, 34, 56, 78, 90, 123, 210, 255] 164 none 0 "0x60806040"
    3000000 none rfl (by decide)

/-- Claim C8: the ABI lookup returns `none` exactly when no descriptor in
the artifact's list bears the requested name, and otherwise returns the
first matching descriptor in list order (first match wins under duplicate
names). -/
theorem find_func_abi_first_match (contract_meta : ContractMeta) (fn : String) :
    (find_func_abi contract_meta fn = none ↔
      ∀ e ∈ contract_meta.abi, e.name ≠ some fn) ∧
    ∀ e, find_func_abi contract_meta fn = some e →
      e.name = some fn ∧ ∃ i, contract_meta.abi.get? i = some e ∧
        ∀ j, j < i → ∀ x, contract_meta.abi.get? j = some x → x.name ≠ some fn :=
  ⟨find_list_none_iff contract_meta.abi fn,
   fun e h => find_list_first contract_meta.abi fn e h⟩

/-- Witness for C8: on the sample artifact with two descriptors both named
`createPair`, the lookup returns the earlier one with every earlier index
unmatched. -/
theorem find_func_abi_first_match_witness :
    (AbiEntry.mk (some "createPair")).name = some "createPair" ∧
    ∃ i, metaSample.abi.get? i = some (AbiEntry.mk (some "createPair")) ∧
      ∀ j, j < i → ∀ x, metaSample.abi.get? j = some x → x.name ≠ some "createPair" :=
  (find_func_abi_first_match metaSample "createPair").2 (AbiEntry.mk (some "createPair")) rfl

/-- Claim C9: with a wait window strictly below the 3-second interval the
round count `wait_for // 3` is zero, so the watcher performs zero polls and
raises the timeout error unconditionally, whatever the source would have
answered. -/
theorem short_window_zero_polls (wait_for : Nat) (h : wait_for < 3)
    (source : Nat → Option Receipt) :
    wait_for_receipt source wait_for = (Except.error Err.timeoutError, 0) := by
  have hred : wait_for_receipt source wait_for =
      (match wait_loop source 0 (wait_for / 3) with
       | (some r, polls) => (Except.ok r, polls)
       | (none, polls) => (Except.error Err.timeoutError, polls)) := rfl
  rw [hred, Nat.div_eq_of_lt h]
  rfl

/-- Witness for C9: a 2-second window times out with zero polls even though
the source would deliver a receipt on the very first poll. -/
theorem short_window_zero_polls_witness :
    wait_for_receipt (fun _ => some receiptOk) 2 = (Except.error Err.timeoutError, 0) :=
  short_window_zero_polls 2 (by decide) (fun _ => some receiptOk)

/-- Claim C10: an empty constructor-type list is treated exactly like an
absent one — both take the falsy branch of `if not types:` — so the deploy
payload is the bare bytecode in both cases, identical for any ABI encoder
and any parameter list. -/
theorem empty_types_like_none (encode : List String → List String → List Nat)
    (contract_meta : ContractMeta) (params : List String) :
    deploy_payload encode contract_meta (some []) params =
      deploy_payload encode contract_meta none params ∧
    deploy_payload encode contract_meta (some []) params = get_bytecode contract_meta ∧
    deploy_payload encode contract_meta none [] = get_bytecode contract_meta :=
  ⟨rfl, rfl, rfl⟩

/-- Claim C5: whenever the four-step sequence fails at step `k` (reverted
receipt, confirmation timeout, transport error, missing ABI, or the
pre-flight with `k = 0`), no submission belongs to any later step: every
recorded `post_tx` call is for a step of index at most `k`. -/
theorem seq_abort (env : MainEnv) (k : Nat) (e : Err)
    (h : (main_run env).1 = Except.error (k, e)) :
    ∀ j ∈ (main_run env).2, j ≤ k := by
  intro j hj
  unfold main_run at h hj
  by_cases hpre : preflight_ok env.account.energy env.account.hasCode = true
  case neg =>
    rw [if_neg hpre] at hj
    simp at hj
  case pos =>
    rw [if_pos hpre] at h hj
    rcases h1 : deploy_step env.step1 with ⟨r1, b1⟩
    rw [h1] at h hj
    cases r1 with
    | error e1 =>
        simp only at h hj
        obtain ⟨hk, -⟩ := Prod.mk.injEq .. ▸ Except.error.inj h
        cases b1 <;> simp at hj
        omega
    | ok a1 =>
        rcases h2 : deploy_step env.step2 with ⟨r2, b2⟩
        rw [h2] at h hj
        cases r2 with
        | error e2 =>
            simp only at h hj
            obtain ⟨hk, -⟩ := Prod.mk.injEq .. ▸ Except.error.inj h
            cases b2 <;> simp at hj <;> omega
        | ok a2 =>
            rcases h3 : deploy_step env.step3 with ⟨r3, b3⟩
            rw [h3] at h hj
            cases r3 with
            | error e3 =>
                simp only at h hj
                obtain ⟨hk, -⟩ := Prod.mk.injEq .. ▸ Except.error.inj h
                cases b3 <;> simp at hj <;> omega
            | ok a3 =>
                rcases h4 : find_func_abi env.factory "createPair" with _ | cp
                · rw [h4] at h hj
                  simp only at h hj
                  obtain ⟨hk, -⟩ := Prod.mk.injEq .. ▸ Except.error.inj h
                  simp at hj
                  omega
                · rw [h4] at h hj
                  rcases h5 : call_step env.step4 with ⟨r4, b4⟩
                  rw [h5] at h hj
                  cases r4 with
                  | error e4 =>
                      simp only at h hj
                      obtain ⟨hk, -⟩ := Prod.mk.injEq .. ▸ Except.error.inj h
                      cases b4 <;> simp at hj <;> omega
                  | ok a4 => simp at h

/-- Witness for C5: a run whose second step (the Factory deploy) reverts
records submissions only for steps 1 and 2. -/
theorem seq_abort_witness :
    (main_run envRevert2).1 = Except.error (2, Err.revertedErr) ∧
    ∀ j ∈ (main_run envRevert2).2, j ≤ 2 := by
  have hov : (20000 * 10 ^ 18 : ℕ) < (2 ^ 1024 - 2 ^ 970) * 10 ^ 18 := by
    have h1 : (2 : ℕ) ^ 970 ≤ 2 ^ 1023 := Nat.pow_le_pow_right one_le_two (by omega)
    have h2 : (2 : ℕ) ^ 1024 = 2 ^ 1023 + 2 ^ 1023 := by
      rw [pow_succ]
      ring
    have h3 : (20000 : ℕ) < 2 ^ 1023 := by
      calc (20000 : ℕ) < 2 ^ 15 := by norm_num
        _ ≤ 2 ^ 1023 := Nat.pow_le_pow_right one_le_two (by omega)
    have h4 : (20000 : ℕ) < 2 ^ 1024 - 2 ^ 970 := by omega
    exact mul_lt_mul_of_pos_right h4 (by norm_num)
  have hpre : preflight_ok envRevert2.account.energy envRevert2.account.hasCode = true :=
    (preflight_char envRevert2.account.energy envRevert2.account.hasCode).mpr
      ⟨by show (14000 * 10 ^ 18 + 909494 : ℕ) < 20000 * 10 ^ 18; norm_num, hov, rfl⟩
  have hrun : main_run envRevert2 = (Except.error (2, Err.revertedErr), [1, 2]) := by
    unfold main_run
    rw [if_pos hpre]
    rfl
  exact ⟨by rw [hrun], seq_abort envRevert2 2 Err.revertedErr (by rw [hrun])⟩

end DeployPy
